import Mathlib

/-
Verification of the Prow job-configuration resolution engine
(pkg/prow/apiv1/config.go): a shallow embedding of the data model and of
the merge / default / compile / validate pipeline, together with theorems
settling the specification claims.

Go maps are embedded as association lists (`List (key, value)`); Go slices
as `List`; nil-able pointers as `Option`; functions returning `error` as
`Except String`.  External library calls (the Go regexp engine,
`time.ParseDuration`, the k8s label validators, and the repository code
that is outside the analysed file: `DecorationConfig.Validate`) are
abstracted into an `Ext` record of oracles, universally quantified in the
theorems.
-/

set_option autoImplicit false

namespace Prow

/-- Go outcome of a call: normal return, error return, or panic. -/
inductive GoOutcome (α : Type) where
  | ok (a : α)
  | fail (msg : String)
  | panic (msg : String)
  deriving DecidableEq

/-- v1.EnvVar (only the fields the engine touches). -/
structure EnvVar where
  Name : String
  Value : String
  deriving DecidableEq

/-- v1.Volume (only the name matters to the engine). -/
structure Volume where
  Name : String
  deriving DecidableEq

/-- v1.Container (only the fields the engine touches). -/
structure Container where
  Command : List String
  Args : List String
  Env : List EnvVar
  deriving DecidableEq

/-- v1.PodSpec (only the fields the engine touches). -/
structure PodSpec where
  Containers : List Container
  InitContainers : List Container
  Volumes : List Volume
  deriving DecidableEq

/-- Refs: a repository reference (org and repo are all the engine reads). -/
structure Refs where
  Org : String
  Repo : String
  deriving DecidableEq

/-- RerunAuthConfig: who may rerun a job.  Declared outside the analysed
file; fields are taken from their uses in `validateJobBase`. -/
structure RerunAuthConfig where
  AllowAnyone : Bool
  GitHubUsers : List String
  GitHubTeamIDs : List Int
  GitHubTeamSlugs : List String
  deriving DecidableEq

/-- Modelled from the spec: `DecorationConfig` is "a structure of optional
fields" whose merge rule is field-by-field (a set field wins, an unset
field inherits).  The concrete field list is outside the analysed file, so
two representative optional fields stand for the field set. -/
structure DecorationConfig where
  UtilityImages : Option String
  Timeout : Option Int
  deriving DecidableEq

/-- JobBase: identity and execution shape shared by all job kinds.  The Go
struct embeds UtilityConfig; its `Decorate`, `DecorationConfig` and
`ExtraRefs` members are flattened into this structure. -/
structure JobBase where
  Name : String
  Agent : String
  Cluster : String
  Namespace : Option String
  Labels : List (String × String)
  MaxConcurrency : Int
  ErrorOnEviction : Bool
  Spec : Option PodSpec
  Decorate : Bool
  DecorationConfig : Option DecorationConfig
  RerunAuthConfig : Option RerunAuthConfig
  ExtraRefs : List Refs
  deriving DecidableEq

/-- Brancher: branch inclusion/exclusion filter.  `re` / `reSkip` hold the
compiled alternation patterns (a compiled Go regexp is represented by its
pattern text). -/
structure Brancher where
  Branches : List String
  SkipBranches : List String
  re : Option String
  reSkip : Option String
  deriving DecidableEq

/-- RegexpChangeMatcher: optional path-change filter. -/
structure RegexpChangeMatcher where
  RunIfChanged : String
  reChanges : Option String
  deriving DecidableEq

/-- Presubmit.  The Go struct embeds JobBase, Brancher and
RegexpChangeMatcher; the embeddings are explicit fields here. -/
structure Presubmit where
  base : JobBase
  brancher : Brancher
  changeMatcher : RegexpChangeMatcher
  AlwaysRun : Bool
  SkipReport : Bool
  Context : String
  Trigger : String
  RerunCommand : String
  re : Option String
  deriving DecidableEq

/-- Postsubmit.  The Go struct embeds JobBase, Brancher and
RegexpChangeMatcher. -/
structure Postsubmit where
  base : JobBase
  brancher : Brancher
  changeMatcher : RegexpChangeMatcher
  Context : String
  deriving DecidableEq

/-- Periodic.  `Interval` is the raw text, `interval` the private parsed
duration field written by `validateJobConfig` (a Go `time.Duration`,
embedded as `Int` nanoseconds). -/
structure Periodic where
  base : JobBase
  Cron : String
  Interval : String
  interval : Int
  deriving DecidableEq

/-- Preset: label-triggered injection of env entries and volumes. -/
structure Preset where
  Labels : List (String × String)
  Env : List EnvVar
  Volumes : List Volume
  deriving DecidableEq

/-- JobConfig: all job definitions.  `AllRepos` and `SourcePath` tags are
diagnostic-only and omitted. -/
structure JobConfig where
  Presets : List Preset
  Presubmits : List (String × List Presubmit)
  Postsubmits : List (String × List Postsubmit)
  Periodics : List Periodic
  deriving DecidableEq

/-- Plank (only the decoration-default fields the claims touch). -/
structure Plank where
  DefaultDecorationConfig : Option DecorationConfig
  DefaultDecorationConfigs : List (String × DecorationConfig)
  deriving DecidableEq

/-- Config: job config plus the controller-level fields the claims touch. -/
structure Config where
  jobConfig : JobConfig
  plank : Plank
  podNamespace : String
  deriving DecidableEq

/-- ProwJobType. -/
inductive ProwJobType where
  | presubmit
  | postsubmit
  | periodic
  deriving DecidableEq

/-- Oracles for the external functions the engine calls: the Go regexp
engine (`regexp.Compile` / `MatchString`, a compiled regexp being
identified with its pattern), `time.ParseDuration`, the k8s label
validators, and `DecorationConfig.Validate` (declared outside the
analysed file). -/
structure Ext where
  compileOk : String → Except String Unit
  reMatch : String → String → Bool
  parseDuration : String → Except String Int
  labelKeyErr : String → Option String
  labelValueErr : String → Option String
  dcValidate : DecorationConfig → Except String Unit

/-- Agent kind constants (declared outside the analysed file; the values
are the Go string constants, only their distinctness matters). -/
def KubernetesAgent : String := "kubernetes"

/-- Agent kind constant for the external-build backend. -/
def KnativeBuildAgent : String := "knative-build"

/-- Agent kind constant for the ticket-system backend. -/
def JenkinsAgent : String := "jenkins"

/-- Agent kind constant for the pipeline-engine backend. -/
def TektonAgent : String := "tekton-pipeline"

/-- Go map lookup returning the value when the key is present
(the `v, ok := m[k]` form). -/
def mapLookupV {α : Type} (m : List (String × α)) (k : String) : Option α :=
  (m.find? (fun kv => kv.1 == k)).map (fun kv => kv.2)

/-- Go map lookup of a slice-valued map without the `ok` flag: a missing
key reads as the empty slice. -/
def mapLookup {α : Type} (m : List (String × List α)) (k : String) : List α :=
  (mapLookupV m k).getD []

/-- The Go `m[k] = append(m[k], v...)` on an association list: extend the
entry for `k` in place, or add a new entry at the end. -/
def insertAppend {α : Type} (m : List (String × List α)) (k : String) (v : List α) :
    List (String × List α) :=
  match m with
  | [] => [(k, v)]
  | (k1, v1) :: rest =>
    if k1 = k then (k1, v1 ++ v) :: rest else (k1, v1) :: insertAppend rest k v

/-- Fold `insertAppend` over the entries of a second map: the
`for repo, jobs := range b { c[repo] = append(c[repo], jobs...) }` loop. -/
def addAll {α : Type} (m entries : List (String × List α)) : List (String × List α) :=
  entries.foldl (fun acc kv => insertAppend acc kv.1 kv.2) m

/-- All values associated to key `k`, concatenated in listed order. -/
def concatAll {α : Type} (m : List (String × List α)) (k : String) : List α :=
  (m.filter (fun kv => kv.1 == k)).flatMap (fun kv => kv.2)

/-- The text before the first slash: `strings.Split(repo, "/")[0]`. -/
def orgOf (repo : String) : String :=
  (repo.splitOn "/").headD ""

/-- Modelled from the spec: `DecorationConfig.ApplyDefault` (declared
outside the analysed file).  "For every field, a value explicitly set on
the job wins; otherwise the resolved default's value is taken"; with nil
receiver the default is returned as-is, with nil argument the receiver. -/
def applyDefault : Option DecorationConfig → Option DecorationConfig → Option DecorationConfig
  | none, dd => dd
  | some d, none => some d
  | some d, some dd =>
    some { UtilityImages := d.UtilityImages.orElse (fun _ => dd.UtilityImages)
           Timeout := d.Timeout.orElse (fun _ => dd.Timeout) }

/-- Modelled from the spec: whether a Brancher matches a branch name.  "A
Brancher with neither inclusion nor exclusion patterns matches every
branch"; branch patterns are embedded as literal branch names. -/
def brancherMatches (br : Brancher) (branch : String) : Bool :=
  (br.Branches.isEmpty || br.Branches.contains branch) && !(br.SkipBranches.contains branch)

/-- Modelled from the spec: `Brancher.Intersects` (declared outside the
analysed file).  "Two Brancher values intersect if there exists a branch
name matched by both inclusion sets and not excluded by either."  This is
a decision procedure for that existential: when both inclusion lists are
empty a fresh branch name outside the two finite exclusion lists always
exists, otherwise only the listed inclusion names need checking. -/
def brancherIntersects (a b : Brancher) : Bool :=
  match a.Branches, b.Branches with
  | [], [] => true
  | [], ys => ys.any (fun x => brancherMatches a x && brancherMatches b x)
  | xs, [] => xs.any (fun x => brancherMatches a x && brancherMatches b x)
  | xs, _ => xs.any (fun x => brancherMatches a x && brancherMatches b x)

/-- Modelled from the spec: a preset applies when "the job's label set
contains every key:value pair the preset requires". -/
def presetApplies (labels : List (String × String)) (preset : Preset) : Bool :=
  preset.Labels.all (fun lv => labels.contains lv)

/-- Modelled from the spec: `mergePreset` (declared outside the analysed
file).  When the preset applies, its env entries are appended to the
single container's env and its volumes to the pod volume list, skipping
volumes whose name already exists. -/
def mergePresetSpec (preset : Preset) (labels : List (String × String)) (sp : PodSpec) :
    PodSpec :=
  if presetApplies labels preset then
    { sp with
      Containers :=
        match sp.Containers with
        | [] => []
        | c :: rest => { c with Env := c.Env ++ preset.Env } :: rest
      Volumes :=
        sp.Volumes ++ preset.Volumes.filter
          (fun v => !((sp.Volumes.map Volume.Name).contains v.Name)) }
  else
    sp

/-- Source `resolvePresets`, restricted to its effect on one pod spec:
every preset in order is merged into the spec (the Go function mutates
the spec through its pointer and only reports errors from `mergePreset`,
which the spec models as total). -/
def resolvePresetsSpec (labels : List (String × String)) (sp : PodSpec)
    (presets : List Preset) : PodSpec :=
  presets.foldl (fun acc preset => mergePresetSpec preset labels acc) sp

/-- Source `Plank.GetDefaultDecorationConfigs`: read the wildcard entry,
then return the `org/repo` entry merged over it, else the `org` entry
merged over it, else the wildcard itself. -/
def GetDefaultDecorationConfigs (p : Plank) (repo : String) : Option DecorationConfig :=
  let dd := mapLookupV p.DefaultDecorationConfigs "*"
  match mapLookupV p.DefaultDecorationConfigs repo with
  | some dcByRepo => applyDefault (some dcByRepo) dd
  | none =>
    match mapLookupV p.DefaultDecorationConfigs (orgOf repo) with
    | some dcByOrg => applyDefault (some dcByOrg) dd
    | none => dd

/-- Source `setPresubmitDecorationDefaults`. -/
def setPresubmitDecorationDefaults (c : Config) (ps : Presubmit) (repo : String) : Presubmit :=
  if ps.base.Decorate then
    { ps with base :=
        { ps.base with DecorationConfig :=
            applyDefault ps.base.DecorationConfig (GetDefaultDecorationConfigs c.plank repo) } }
  else
    ps

/-- Source `setPostsubmitDecorationDefaults`. -/
def setPostsubmitDecorationDefaults (c : Config) (ps : Postsubmit) (repo : String) : Postsubmit :=
  if ps.base.Decorate then
    { ps with base :=
        { ps.base with DecorationConfig :=
            applyDefault ps.base.DecorationConfig (GetDefaultDecorationConfigs c.plank repo) } }
  else
    ps

/-- Source `setPeriodicDecorationDefaults`: the lookup key is
`org/repo` of the first extra ref when present, else the empty string. -/
def setPeriodicDecorationDefaults (c : Config) (ps : Periodic) : Periodic :=
  if ps.base.Decorate then
    let orgRepo :=
      match ps.base.ExtraRefs with
      | [] => ""
      | r :: _ => r.Org ++ "/" ++ r.Repo
    { ps with base :=
        { ps.base with DecorationConfig :=
            applyDefault ps.base.DecorationConfig (GetDefaultDecorationConfigs c.plank orgRepo) } }
  else
    ps

/-- Source `JobConfig.decorationRequested`. -/
def decorationRequested (jc : JobConfig) : Bool :=
  jc.Presubmits.any (fun kv => kv.2.any (fun p => p.base.Decorate)) ||
    jc.Postsubmits.any (fun kv => kv.2.any (fun p => p.base.Decorate)) ||
    jc.Periodics.any (fun p => p.base.Decorate)

/-- First element of the list that repeats an earlier one (the duplicate
preset `label:value` scan of `mergeJobConfigs`, with the running Go set
embedded as the `seen` list). -/
def firstDup : List String → List String → Option String
  | [], _ => none
  | x :: xs, seen => if seen.contains x then some x else firstDup xs (x :: seen)

/-- The `label:value` pairs of a preset list, flattened in listed order. -/
def presetPairs (presets : List Preset) : List String :=
  presets.flatMap (fun p => p.Labels.map (fun lv => lv.1 ++ ":" ++ lv.2))

/-- Source `mergeJobConfigs`: presets and periodics concatenate, the
presubmit and postsubmit maps merge additively per repository key.  (Go
copies `a`'s map into a fresh map before appending `b`'s entries; copying
is the identity on an association list.  The source's duplicate-pair
message quotes label:value, the quotes are elided here.) -/
def mergeJobConfigs (a b : JobConfig) : Except String JobConfig :=
  let presets := a.Presets ++ b.Presets
  match firstDup (presetPairs presets) [] with
  | some pair => .error ("duplicated preset label:value pair : " ++ pair)
  | none =>
    .ok { Presets := presets
          Periodics := a.Periodics ++ b.Periodics
          Presubmits := addAll a.Presubmits b.Presubmits
          Postsubmits := addAll a.Postsubmits b.Postsubmits }

/-- Source `DefaultTriggerFor`. -/
def DefaultTriggerFor (name : String) : String :=
  "(?m)^/test( | .* )" ++ name ++ ",?($|\\s.*)"

/-- Source `DefaultRerunCommandFor`. -/
def DefaultRerunCommandFor (name : String) : String :=
  "/test " ++ name

/-- Source `defaultJobBase`: default agent, namespace and cluster. -/
def defaultJobBase (c : Config) (base : JobBase) : JobBase :=
  let base :=
    if base.Agent = "" then { base with Agent := KubernetesAgent } else base
  let base :=
    if base.Namespace = none ∨ base.Namespace = some "" then
      { base with Namespace := some c.podNamespace }
    else base
  if base.Cluster = "" then { base with Cluster := "default" } else base

/-- Source `defaultPresubmitFields`: job-base defaults, context default,
and the canonical trigger/rerun pair when both are unset. -/
def defaultPresubmitFields (c : Config) (js : List Presubmit) : List Presubmit :=
  js.map (fun j =>
    let j := { j with base := defaultJobBase c j.base }
    let j := if j.Context = "" then { j with Context := j.base.Name } else j
    if j.Trigger = "" ∧ j.RerunCommand = "" then
      { j with Trigger := DefaultTriggerFor j.base.Name
               RerunCommand := DefaultRerunCommandFor j.base.Name }
    else j)

/-- Source `defaultPostsubmitFields`. -/
def defaultPostsubmitFields (c : Config) (js : List Postsubmit) : List Postsubmit :=
  js.map (fun j =>
    let j := { j with base := defaultJobBase c j.base }
    if j.Context = "" then { j with Context := j.base.Name } else j)

/-- Source `defaultPeriodicFields`. -/
def defaultPeriodicFields (c : Config) (js : List Periodic) : List Periodic :=
  js.map (fun j => { j with base := defaultJobBase c j.base })

/-- Source `setBrancherRegexes`: compile the inclusion and exclusion
alternations (`strings.Join(_, "|")`) and cache them on the Brancher. -/
def setBrancherRegexes (E : Ext) (br : Brancher) : Except String Brancher :=
  match
    (if br.Branches ≠ [] then
       let pat := String.intercalate "|" br.Branches
       match E.compileOk pat with
       | .ok _ => .ok { br with re := some pat }
       | .error e => .error ("could not compile positive branch regex: " ++ e)
     else .ok br : Except String Brancher)
  with
  | .error e => .error e
  | .ok br =>
    if br.SkipBranches ≠ [] then
      let pat := String.intercalate "|" br.SkipBranches
      match E.compileOk pat with
      | .ok _ => .ok { br with reSkip := some pat }
      | .error e => .error ("could not compile negative branch regex: " ++ e)
    else .ok br

/-- Source `setChangeRegexes`. -/
def setChangeRegexes (E : Ext) (cm : RegexpChangeMatcher) : Except String RegexpChangeMatcher :=
  if cm.RunIfChanged ≠ "" then
    match E.compileOk cm.RunIfChanged with
    | .ok _ => .ok { cm with reChanges := some cm.RunIfChanged }
    | .error e => .error ("could not compile run_if_changed regex: " ++ e)
  else .ok cm

/-- Source `SetPresubmitRegexes`: compile each trigger, require the rerun
command to match it, then compile the brancher and change patterns. -/
def SetPresubmitRegexes (E : Ext) : List Presubmit → Except String (List Presubmit)
  | [] => .ok []
  | j :: rest =>
    match E.compileOk j.Trigger with
    | .error e => .error ("could not compile trigger regex for " ++ j.base.Name ++ ": " ++ e)
    | .ok _ =>
      if E.reMatch j.Trigger j.RerunCommand = false then
        .error ("for job " ++ j.base.Name ++ ", rerun command \"" ++ j.RerunCommand ++
          "\" does not match trigger \"" ++ j.Trigger ++ "\"")
      else
        match setBrancherRegexes E j.brancher with
        | .error e => .error ("could not set branch regexes for " ++ j.base.Name ++ ": " ++ e)
        | .ok b =>
          match setChangeRegexes E j.changeMatcher with
          | .error e => .error ("could not set change regexes for " ++ j.base.Name ++ ": " ++ e)
          | .ok cm =>
            match SetPresubmitRegexes E rest with
            | .error e => .error e
            | .ok rest2 =>
              .ok ({ j with re := some j.Trigger, brancher := b, changeMatcher := cm } :: rest2)

/-- Source `SetPostsubmitRegexes`. -/
def SetPostsubmitRegexes (E : Ext) : List Postsubmit → Except String (List Postsubmit)
  | [] => .ok []
  | j :: rest =>
    match setBrancherRegexes E j.brancher with
    | .error e => .error ("could not set branch regexes for " ++ j.base.Name ++ ": " ++ e)
    | .ok b =>
      match setChangeRegexes E j.changeMatcher with
      | .error e => .error ("could not set change regexes for " ++ j.base.Name ++ ": " ++ e)
      | .ok cm =>
        match SetPostsubmitRegexes E rest with
        | .error e => .error e
        | .ok rest2 => .ok ({ j with brancher := b, changeMatcher := cm } :: rest2)

/-- Source `defaultPresubmits` for one repository: per job, decoration
defaults then preset resolution (the Go loop mutates each job's pod spec
through its pointer), then field defaulting and regex compilation. -/
def defaultPresubmits (E : Ext) (c : Config) (repo : String) (jobs : List Presubmit) :
    Except String (List Presubmit) :=
  let jobs := jobs.map (fun ps =>
    let ps := setPresubmitDecorationDefaults c ps repo
    { ps with base :=
        { ps.base with Spec :=
            ps.base.Spec.map (fun sp => resolvePresetsSpec ps.base.Labels sp c.jobConfig.Presets) } })
  SetPresubmitRegexes E (defaultPresubmitFields c jobs)

/-- Source `defaultPostsubmits` for one repository. -/
def defaultPostsubmits (E : Ext) (c : Config) (repo : String) (jobs : List Postsubmit) :
    Except String (List Postsubmit) :=
  let jobs := jobs.map (fun ps =>
    let ps := setPostsubmitDecorationDefaults c ps repo
    { ps with base :=
        { ps.base with Spec :=
            ps.base.Spec.map (fun sp => resolvePresetsSpec ps.base.Labels sp c.jobConfig.Presets) } })
  SetPostsubmitRegexes E (defaultPostsubmitFields c jobs)

/-- Source `defaultPeriodics`: field defaulting then preset resolution. -/
def defaultPeriodics (c : Config) (jobs : List Periodic) : Except String (List Periodic) :=
  let jobs := defaultPeriodicFields c jobs
  .ok (jobs.map (fun j =>
    { j with base :=
        { j.base with Spec :=
            j.base.Spec.map (fun sp => resolvePresetsSpec j.base.Labels sp c.jobConfig.Presets) } }))

/-- The decoration block of source `finalizeJobConfig`: migrate the
deprecated single default into the wildcard entry, require and validate
the wildcard entry, then resolve periodic decoration defaults.  (The
source's bracketed messages quote the star; the quotes are elided.) -/
def decorationDefaulting (E : Ext) (c : Config) : Except String Config :=
  match
    (match c.plank.DefaultDecorationConfig with
     | some dc =>
       if c.plank.DefaultDecorationConfigs ≠ [] then
         .error "both default_decoration_config and default_decoration_configs are specified"
       else
         .ok { c with plank := { c.plank with DefaultDecorationConfigs := [("*", dc)] } }
     | none => .ok c : Except String Config)
  with
  | .error e => .error e
  | .ok c =>
    if c.plank.DefaultDecorationConfigs = [] then
      .error "both default_decoration_config and default_decoration_configs[*] are missing"
    else
      match mapLookupV c.plank.DefaultDecorationConfigs "*" with
      | none => .error "default_decoration_configs[*] is missing"
      | some w =>
        match E.dcValidate w with
        | .error e => .error ("decoration config validation error: " ++ e)
        | .ok _ =>
          .ok { c with jobConfig :=
                  { c.jobConfig with Periodics :=
                      c.jobConfig.Periodics.map (setPeriodicDecorationDefaults c) } }

/-- Map a fallible per-repository transform over an association list of
job lists, keeping keys and order. -/
def mapRepoM {α : Type} (f : String → List α → Except String (List α)) :
    List (String × List α) → Except String (List (String × List α))
  | [] => .ok []
  | (repo, jobs) :: rest =>
    match f repo jobs with
    | .error e => .error e
    | .ok jobs2 =>
      match mapRepoM f rest with
      | .error e => .error e
      | .ok rest2 => .ok ((repo, jobs2) :: rest2)

/-- The per-repository defaulting loops of source `finalizeJobConfig`. -/
def finalizeRepos (E : Ext) (c : Config) : Except String Config :=
  match mapRepoM (fun repo jobs => defaultPresubmits E c repo jobs) c.jobConfig.Presubmits with
  | .error e => .error e
  | .ok pres =>
    match mapRepoM (fun repo jobs => defaultPostsubmits E c repo jobs) c.jobConfig.Postsubmits with
    | .error e => .error e
    | .ok posts =>
      match defaultPeriodics c c.jobConfig.Periodics with
      | .error e => .error e
      | .ok pers =>
        .ok { c with jobConfig :=
                { c.jobConfig with Presubmits := pres, Postsubmits := posts, Periodics := pers } }

/-- Source `finalizeJobConfig`: the decoration block runs only when some
job requests decoration; the defaulting loops always run. -/
def finalizeJobConfig (E : Ext) (c : Config) : Except String Config :=
  if decorationRequested c.jobConfig then
    match decorationDefaulting E c with
    | .error e => .error e
    | .ok c2 => finalizeRepos E c2
  else
    finalizeRepos E c

/-- The source's `jobNameRegex`, the fixed pattern `^[A-Za-z0-9-._]+$`:
a non-empty string of ASCII alphanumerics, dash, dot or underscore. -/
def jobNameOK (s : String) : Bool :=
  !s.data.isEmpty && s.data.all (fun c => c.isAlphanum || c = '-' || c = '.' || c = '_')

/-- Source `validateLabels` (the k8s syntax validators are oracles). -/
def validateLabels (E : Ext) : List (String × String) → Except String Unit
  | [] => .ok ()
  | (label, value) :: rest =>
    match E.labelKeyErr label with
    | some e => .error ("invalid label " ++ label ++ ": " ++ e)
    | none =>
      match E.labelValueErr value with
      | some e => .error ("label " ++ label ++ " has invalid value " ++ value ++ ": " ++ e)
      | none => validateLabels E rest

/-- Source `validateAgent`: the ordered switch over agent/spec/decoration/
namespace compatibility.  Unknown agents only warn. -/
def validateAgent (v : JobBase) (podNamespace : String) : Except String Unit :=
  let k := KubernetesAgent
  let b := KnativeBuildAgent
  let j := JenkinsAgent
  let p := TektonAgent
  let agent := v.Agent
  if ¬(agent = k ∨ agent = b ∨ agent = j ∨ agent = p) then
    .ok ()
  else if v.Spec.isSome = true ∧ agent ≠ k then
    .error ("job specs require agent: " ++ k ++ " (found \"" ++ agent ++ "\")")
  else if agent = k ∧ v.Spec = none then
    .error "kubernetes jobs require a spec"
  else if v.DecorationConfig.isSome = true ∧ agent ≠ k ∧ agent ≠ b then
    .error ("decoration requires agent: " ++ k ++ " or " ++ b ++ " (found \"" ++ agent ++ "\")")
  else if v.ErrorOnEviction = true ∧ agent ≠ k then
    .error ("error_on_eviction only applies to agent: " ++ k ++ " (found \"" ++ agent ++ "\")")
  else if v.Namespace = none ∨ v.Namespace = some "" then
    .error "failed to default namespace"
  else if v.Namespace ≠ some podNamespace ∧ agent ≠ b ∧ agent ≠ p then
    .error ("namespace customization requires agent: " ++ b ++ " or " ++ p ++
      " (found \"" ++ agent ++ "\")")
  else
    .ok ()

/-- Source `validatePodSpec`: no init containers, exactly one container. -/
def validatePodSpec (jobType : ProwJobType) (spec : Option PodSpec) : Except String Unit :=
  match spec with
  | none => .ok ()
  | some sp =>
    if sp.InitContainers ≠ [] then
      .error "pod spec may not use init containers"
    else if sp.Containers.length ≠ 1 then
      .error ("pod spec must specify exactly 1 container, found: " ++ toString sp.Containers.length)
    else
      .ok ()

/-- Source `validateDecoration`: a set decoration config must validate and
the container must carry a command or args. -/
def validateDecoration (E : Ext) (container : Container) (config : Option DecorationConfig) :
    Except String Unit :=
  match config with
  | none => .ok ()
  | some dc =>
    match E.dcValidate dc with
    | .error e => .error ("invalid decoration config: " ++ e)
    | .ok _ =>
      match container.Command ++ container.Args with
      | [] => .error "decorated job containers must specify command and/or args"
      | a :: _ =>
        if a = "" then .error "decorated job containers must specify command and/or args"
        else .ok ()

/-- Source `validateJobBase`: name pattern, concurrency sign, agent and
pod-spec compatibility, labels; jobs without a spec (or with an empty
container list) return early, the remaining jobs get the rerun-auth
mutual-exclusion check and the decoration check. -/
def validateJobBase (E : Ext) (v : JobBase) (jobType : ProwJobType) (podNamespace : String) :
    Except String Unit :=
  if jobNameOK v.Name = false then
    .error "name: must match regex \"^[A-Za-z0-9-._]+$\""
  else if v.MaxConcurrency < 0 then
    .error ("max_concurrency: " ++ toString v.MaxConcurrency ++ " must be a non-negative number")
  else
    match validateAgent v podNamespace with
    | .error e => .error e
    | .ok _ =>
      match validatePodSpec jobType v.Spec with
      | .error e => .error e
      | .ok _ =>
        match validateLabels E v.Labels with
        | .error e => .error e
        | .ok _ =>
          match v.Spec with
          | none => .ok ()
          | some sp =>
            match sp.Containers with
            | [] => .ok ()
            | c0 :: _ =>
              match v.RerunAuthConfig with
              | some rac =>
                if rac.AllowAnyone = true ∧
                    (rac.GitHubUsers ≠ [] ∨ rac.GitHubTeamIDs ≠ [] ∨ rac.GitHubTeamSlugs ≠ []) then
                  .error "allow anyone is set to true and permitted users or groups are specified"
                else
                  validateDecoration E c0 v.DecorationConfig
              | none => validateDecoration E c0 v.DecorationConfig

/-- Source `validateTriggering`. -/
def validateTriggering (job : Presubmit) : Except String Unit :=
  if job.AlwaysRun = true ∧ job.changeMatcher.RunIfChanged ≠ "" then
    .error ("job " ++ job.base.Name ++
      " is set to always run but also declares run_if_changed targets, which are mutually exclusive")
  else if job.SkipReport = false ∧ job.Context = "" then
    .error ("job " ++ job.base.Name ++ " is set to report but has no context configured")
  else if (job.Trigger ≠ "" ∧ job.RerunCommand = "") ∨ (job.Trigger = "" ∧ job.RerunCommand ≠ "") then
    .error ("Either both of job.Trigger and job.RerunCommand must be set, wasnt the case for job \"" ++
      job.base.Name ++ "\"")
  else
    .ok ()

/-- The loop of source `validatePresubmits`, with the accepted-so-far map
(`validPresubmits`) explicit: each entry is tested against the previously
accepted entries of the same name before its own checks. -/
def validatePresubmitsAux (E : Ext) (podNamespace : String)
    (acc : List (String × List Presubmit)) : List Presubmit → Except String Unit
  | [] => .ok ()
  | ps :: rest =>
    if (mapLookup acc ps.base.Name).any
        (fun existing => brancherIntersects existing.brancher ps.brancher) then
      .error ("duplicated presubmit job: " ++ ps.base.Name)
    else
      match validateJobBase E ps.base .presubmit podNamespace with
      | .error e => .error ("invalid presubmit job " ++ ps.base.Name ++ ": " ++ e)
      | .ok _ =>
        match validateTriggering ps with
        | .error e => .error e
        | .ok _ => validatePresubmitsAux E podNamespace (insertAppend acc ps.base.Name [ps]) rest

/-- Source `validatePresubmits` for one repository. -/
def validatePresubmits (E : Ext) (presubmits : List Presubmit) (podNamespace : String) :
    Except String Unit :=
  validatePresubmitsAux E podNamespace [] presubmits

/-- The loop of source `validatePostsubmits`, with the accepted-so-far map
explicit. -/
def validatePostsubmitsAux (E : Ext) (podNamespace : String)
    (acc : List (String × List Postsubmit)) : List Postsubmit → Except String Unit
  | [] => .ok ()
  | ps :: rest =>
    if (mapLookup acc ps.base.Name).any
        (fun existing => brancherIntersects existing.brancher ps.brancher) then
      .error ("duplicated postsubmit job: " ++ ps.base.Name)
    else
      match validateJobBase E ps.base .postsubmit podNamespace with
      | .error e => .error ("invalid postsubmit job " ++ ps.base.Name ++ ": " ++ e)
      | .ok _ => validatePostsubmitsAux E podNamespace (insertAppend acc ps.base.Name [ps]) rest

/-- Source `validatePostsubmits` for one repository. -/
def validatePostsubmits (E : Ext) (postsubmits : List Postsubmit) (podNamespace : String) :
    Except String Unit :=
  validatePostsubmitsAux E podNamespace [] postsubmits

/-- Source `validatePeriodics`: globally unique names, then job-base
checks (the Go set of seen names is the `seen` list). -/
def validatePeriodics (E : Ext) (podNamespace : String) :
    List Periodic → List String → Except String Unit
  | [], _ => .ok ()
  | p :: rest, seen =>
    if seen.contains p.base.Name then
      .error ("duplicated periodic job : " ++ p.base.Name)
    else
      match validateJobBase E p.base .periodic podNamespace with
      | .error e => .error ("invalid periodic job " ++ p.base.Name ++ ": " ++ e)
      | .ok _ => validatePeriodics E podNamespace rest (p.base.Name :: seen)

/-- The interval loop of source `validateJobConfig`: exactly one of cron
and interval must be set, and a set interval must parse; the parsed
duration is written into the periodic's private `interval` field. -/
def setIntervals (E : Ext) : List Periodic → Except String (List Periodic)
  | [] => .ok []
  | p :: rest =>
    if p.Cron ≠ "" ∧ p.Interval ≠ "" then
      .error ("cron and interval cannot be both set in periodic " ++ p.base.Name)
    else if p.Cron = "" ∧ p.Interval = "" then
      .error ("cron and interval cannot be both empty in periodic " ++ p.base.Name)
    else if p.Cron ≠ "" then
      match setIntervals E rest with
      | .error e => .error e
      | .ok rest2 => .ok (p :: rest2)
    else
      match E.parseDuration p.Interval with
      | .error e => .error ("cannot parse duration for " ++ p.base.Name ++ ": " ++ e)
      | .ok d =>
        match setIntervals E rest with
        | .error e => .error e
        | .ok rest2 => .ok ({ p with interval := d } :: rest2)

/-- Run a per-repository check over every entry of a job map. -/
def forRepos {α : Type} (f : List α → Except String Unit) :
    List (String × List α) → Except String Unit
  | [] => .ok ()
  | (_, jobs) :: rest =>
    match f jobs with
    | .error e => .error e
    | .ok _ => forRepos f rest

/-- Source `validateJobConfig`: presubmit, postsubmit and periodic checks,
then the interval loop (which mutates the periodics — the returned config
carries the updated list). -/
def validateJobConfig (E : Ext) (c : Config) : Except String Config :=
  match forRepos (fun jobs => validatePresubmits E jobs c.podNamespace) c.jobConfig.Presubmits with
  | .error e => .error e
  | .ok _ =>
    match forRepos (fun jobs => validatePostsubmits E jobs c.podNamespace) c.jobConfig.Postsubmits with
    | .error e => .error e
    | .ok _ =>
      match validatePeriodics E c.podNamespace c.jobConfig.Periodics [] with
      | .error e => .error e
      | .ok _ =>
        match setIntervals E c.jobConfig.Periodics with
        | .error e => .error e
        | .ok ps => .ok { c with jobConfig := { c.jobConfig with Periodics := ps } }

/-- The body of source `Load` without the deferred recover: `loadConfig`,
`finalizeJobConfig`, `validateComponentConfig` and `validateJobConfig` in
sequence, each short-circuiting on error and able to panic.  The phases
are behaviours (`GoOutcome`), covering panics raised anywhere inside
them. -/
def loadPipeline (loadConfigR : GoOutcome Config)
    (finalizeR validateComponentR validateJobR : Config → GoOutcome Config) : GoOutcome Config :=
  match loadConfigR with
  | .panic r => .panic r
  | .fail e => .fail e
  | .ok c =>
    match finalizeR c with
    | .panic r => .panic r
    | .fail e => .fail e
    | .ok c =>
      match validateComponentR c with
      | .panic r => .panic r
      | .fail e => .fail e
      | .ok c =>
        match validateJobR c with
        | .panic r => .panic r
        | .fail e => .fail e
        | .ok c => .ok c

/-- Source `Load`: run the pipeline under the deferred recover, which
turns a panic into the pair `(nil, panic error)`; the result models the
Go pair `(c *Config, err error)`. -/
def Load (loadConfigR : GoOutcome Config)
    (finalizeR validateComponentR validateJobR : Config → GoOutcome Config) :
    Option Config × Option String :=
  match loadPipeline loadConfigR finalizeR validateComponentR validateJobR with
  | .ok c => (some c, none)
  | .fail e => (none, some e)
  | .panic r => (none, some ("panic loading config: " ++ r))

/-- Regular-expression abstract syntax for the fragment used by the
default trigger pattern: literals, the dot, a character class, the
multiline begin/end anchors, sequencing, alternation and star. -/
inductive RE where
  | eps
  | ch (c : Char)
  | anyc
  | cls (p : Char → Bool)
  | bol
  | eol
  | seq (a b : RE)
  | alt (a b : RE)
  | star (a : RE)

/-- Matching judgment for `RE` over a character list with explicit span
positions, following Go regexp semantics for the fragment: `bol` matches
the empty span at position 0 or after a newline, `eol` at the end of the
text or before a newline. -/
inductive MSpan : RE → List Char → Nat → Nat → Prop where
  | eps (s : List Char) (i : Nat) : MSpan .eps s i i
  | ch (s : List Char) (i : Nat) (c : Char) : s[i]? = some c → MSpan (.ch c) s i (i + 1)
  | anyc (s : List Char) (i : Nat) (c : Char) : s[i]? = some c → MSpan .anyc s i (i + 1)
  | cls (s : List Char) (i : Nat) (c : Char) (p : Char → Bool) :
      s[i]? = some c → p c = true → MSpan (.cls p) s i (i + 1)
  | bolStart (s : List Char) : MSpan .bol s 0 0
  | bolNl (s : List Char) (i : Nat) : 0 < i → s[i - 1]? = some '\n' → MSpan .bol s i i
  | eolEnd (s : List Char) : MSpan .eol s s.length s.length
  | eolNl (s : List Char) (i : Nat) : s[i]? = some '\n' → MSpan .eol s i i
  | seq {a b : RE} {s : List Char} {i j k : Nat} :
      MSpan a s i j → MSpan b s j k → MSpan (.seq a b) s i k
  | altL {a b : RE} {s : List Char} {i j : Nat} : MSpan a s i j → MSpan (.alt a b) s i j
  | altR {a b : RE} {s : List Char} {i j : Nat} : MSpan b s i j → MSpan (.alt a b) s i j
  | starNil (a : RE) (s : List Char) (i : Nat) : MSpan (.star a) s i i
  | starCons {a : RE} {s : List Char} {i j k : Nat} :
      MSpan a s i j → MSpan (.star a) s j k → MSpan (.star a) s i k

/-- Go `MatchString`: the pattern matches some span of the text. -/
def reMatches (r : RE) (s : String) : Prop :=
  ∃ i j, MSpan r s.data i j

/-- A sequence of literal characters. -/
def litRE (cs : List Char) : RE :=
  cs.foldr (fun c r => .seq (.ch c) r) .eps

/-- The job name as compiled inside the trigger pattern: every character
of a valid job name is a regexp literal except the dot, which compiles to
the any-character pattern. -/
def nameRE (cs : List Char) : RE :=
  cs.foldr (fun c r => .seq (if c = '.' then .anyc else .ch c) r) .eps

/-- Go regexp `\s`: space, tab, newline, vertical tab, form feed, return. -/
def goSpace (c : Char) : Bool :=
  c = ' ' || c = '\t' || c = '\n' || c = '\x0b' || c = '\x0c' || c = '\r'

/-- The abstract syntax of the pattern string `DefaultTriggerFor name`,
`(?m)^/test( | .* )name,?($|\s.*)`: the multiline flag turns the anchors
into `bol`/`eol`, the group alternates a single space with a space-padded
wildcard, the name compiles by `nameRE`, the comma is optional and the
tail alternates the end anchor with whitespace followed by anything. -/
def triggerRE (name : String) : RE :=
  .seq .bol
    (.seq (litRE "/test".data)
      (.seq (.alt (litRE [' ']) (.seq (.ch ' ') (.seq (.star .anyc) (.ch ' '))))
        (.seq (nameRE name.data)
          (.seq (.alt (.ch ',') .eps)
            (.alt .eol (.seq (.cls goSpace) (.star .anyc)))))))

/-- A concrete instance of the external oracles, used by the closed
scenario statements: compilation always succeeds, every match succeeds,
durations parse to one nanosecond, labels are well-formed and decoration
configs are valid. -/
def extId : Ext :=
  { compileOk := fun _ => .ok ()
    reMatch := fun _ _ => true
    parseDuration := fun _ => .ok 1
    labelKeyErr := fun _ => none
    labelValueErr := fun _ => none
    dcValidate := fun _ => .ok () }

section MapLemmas

variable {α : Type}

theorem mapLookup_insertAppend (m : List (String × List α)) (k k' : String) (v : List α) :
    mapLookup (insertAppend m k v) k' =
      if k = k' then mapLookup m k' ++ v else mapLookup m k' := by
  induction m with
  | nil =>
    by_cases h : k = k' <;> simp [insertAppend, mapLookup, mapLookupV, h]
  | cons hd tl ih =>
    obtain ⟨k1, v1⟩ := hd
    by_cases h1 : k1 = k
    · subst h1
      by_cases h2 : k1 = k' <;>
        simp [insertAppend, mapLookup, mapLookupV, h2]
    · by_cases h2 : k1 = k'
      · subst h2
        have hne : ¬k = k1 := fun h => h1 h.symm
        simp [insertAppend, mapLookup, mapLookupV, h1, hne]
      · simp only [insertAppend, if_neg h1]
        simpa [mapLookup, mapLookupV, h2] using ih

theorem concatAll_cons (k1 k : String) (v1 : List α) (rest : List (String × List α)) :
    concatAll ((k1, v1) :: rest) k =
      (if k1 = k then v1 else []) ++ concatAll rest k := by
  by_cases h : k1 = k <;> simp [concatAll, h]

theorem mapLookup_addAll (entries : List (String × List α)) :
    ∀ (m : List (String × List α)) (k : String),
      mapLookup (addAll m entries) k = mapLookup m k ++ concatAll entries k := by
  induction entries with
  | nil => intro m k; simp [addAll, concatAll]
  | cons hd tl ih =>
    intro m k
    obtain ⟨k1, v1⟩ := hd
    have : addAll m ((k1, v1) :: tl) = addAll (insertAppend m k1 v1) tl := rfl
    rw [this, ih, mapLookup_insertAppend, concatAll_cons]
    by_cases h : k1 = k <;> simp [h]

theorem concatAll_eq_nil_of_not_mem (m : List (String × List α)) (k : String)
    (h : k ∉ m.map Prod.fst) : concatAll m k = [] := by
  induction m with
  | nil => rfl
  | cons hd tl ih =>
    obtain ⟨k1, v1⟩ := hd
    simp only [List.map_cons, List.mem_cons] at h
    push_neg at h
    rw [concatAll_cons, if_neg (fun he => h.1 he.symm), List.nil_append]
    exact ih h.2

theorem concatAll_eq_mapLookup (m : List (String × List α)) (k : String)
    (h : (m.map Prod.fst).Nodup) : concatAll m k = mapLookup m k := by
  induction m with
  | nil => rfl
  | cons hd tl ih =>
    obtain ⟨k1, v1⟩ := hd
    simp only [List.map_cons, List.nodup_cons] at h
    rw [concatAll_cons]
    by_cases he : k1 = k
    · subst he
      rw [if_pos rfl, concatAll_eq_nil_of_not_mem tl k1 h.1]
      simp [mapLookup, mapLookupV]
    · rw [if_neg he, List.nil_append, ih h.2]
      simp [mapLookup, mapLookupV, he]

theorem keys_insertAppend (m : List (String × List α)) (k : String) (v : List α) :
    (insertAppend m k v).map Prod.fst =
      if k ∈ m.map Prod.fst then m.map Prod.fst else m.map Prod.fst ++ [k] := by
  induction m with
  | nil => simp [insertAppend]
  | cons hd tl ih =>
    obtain ⟨k1, v1⟩ := hd
    by_cases h : k1 = k
    · subst h
      simp [insertAppend]
    · have hne : ¬k = k1 := fun he => h he.symm
      by_cases hmem : k ∈ tl.map Prod.fst <;>
        simp [insertAppend, h, hne, hmem, ih]

theorem nodup_keys_insertAppend (m : List (String × List α)) (k : String) (v : List α)
    (h : (m.map Prod.fst).Nodup) : ((insertAppend m k v).map Prod.fst).Nodup := by
  rw [keys_insertAppend]
  by_cases hmem : k ∈ m.map Prod.fst
  · simpa [hmem] using h
  · rw [if_neg hmem]
    refine List.Nodup.append h (List.nodup_singleton k) ?_
    intro x hx hx'
    simp only [List.mem_singleton] at hx'
    exact hmem (hx' ▸ hx)

theorem nodup_keys_addAll (entries : List (String × List α)) :
    ∀ (m : List (String × List α)), (m.map Prod.fst).Nodup →
      ((addAll m entries).map Prod.fst).Nodup := by
  induction entries with
  | nil => intro m h; exact h
  | cons hd tl ih =>
    intro m h
    exact ih (insertAppend m hd.1 hd.2) (nodup_keys_insertAppend m hd.1 hd.2 h)

theorem concatAll_addAll (b c : List (String × List α)) (k : String)
    (hb : (b.map Prod.fst).Nodup) :
    concatAll (addAll b c) k = concatAll b k ++ concatAll c k := by
  rw [concatAll_eq_mapLookup _ _ (nodup_keys_addAll c b hb), mapLookup_addAll,
    concatAll_eq_mapLookup b k hb]

end MapLemmas

/-- Extract the components of a successful `mergeJobConfigs`. -/
theorem mergeJobConfigs_ok (a b ab : JobConfig) (h : mergeJobConfigs a b = .ok ab) :
    ab.Presets = a.Presets ++ b.Presets ∧
    ab.Periodics = a.Periodics ++ b.Periodics ∧
    ab.Presubmits = addAll a.Presubmits b.Presubmits ∧
    ab.Postsubmits = addAll a.Postsubmits b.Postsubmits := by
  unfold mergeJobConfigs at h
  dsimp only at h
  split at h
  · exact absurd h (by simp)
  · injection h with h
    subst h
    exact ⟨rfl, rfl, rfl, rfl⟩

/-- C1: `Load` returns either a non-nil config with a nil error or a nil
config with a non-nil error; a panic anywhere in the pipeline is
recovered at the `Load` boundary and rewrapped as an ordinary error, and
a successful pipeline is handed back unchanged, so no panic reaches the
caller. -/
theorem load_total_and_recovers (lc : GoOutcome Config)
    (fin vc vj : Config → GoOutcome Config) :
    ((∃ c, Load lc fin vc vj = (some c, none)) ∨ (∃ e, Load lc fin vc vj = (none, some e)))
    ∧ (∀ r, loadPipeline lc fin vc vj = .panic r →
        Load lc fin vc vj = (none, some ("panic loading config: " ++ r)))
    ∧ (∀ c, loadPipeline lc fin vc vj = .ok c → Load lc fin vc vj = (some c, none)) := by
  refine ⟨?_, ?_, ?_⟩
  · unfold Load
    cases h : loadPipeline lc fin vc vj <;> simp
  · intro r h
    unfold Load
    rw [h]
  · intro c h
    unfold Load
    rw [h]

/-- Witness for C1: a pipeline that panics in `loadConfig` yields a nil
config and the rewrapped panic error. -/
theorem load_total_and_recovers_witness :
    Load (GoOutcome.panic "boom") GoOutcome.ok GoOutcome.ok GoOutcome.ok
      = (none, some ("panic loading config: " ++ "boom")) :=
  (load_total_and_recovers (GoOutcome.panic "boom") GoOutcome.ok GoOutcome.ok GoOutcome.ok).2.1
    "boom" rfl

/-- C7: merging fragment `a` then `b` concatenates, for every repository
key, `a`'s presubmit (and postsubmit) list with `b`'s, in order, and
concatenates the periodics; consequently merging is associative
per-repository. -/
theorem merge_appends_per_repo_and_assoc :
    (∀ (a b ab : JobConfig),
      (b.Presubmits.map Prod.fst).Nodup → (b.Postsubmits.map Prod.fst).Nodup →
      mergeJobConfigs a b = .ok ab →
      (∀ repo, mapLookup ab.Presubmits repo =
        mapLookup a.Presubmits repo ++ mapLookup b.Presubmits repo)
      ∧ (∀ repo, mapLookup ab.Postsubmits repo =
        mapLookup a.Postsubmits repo ++ mapLookup b.Postsubmits repo)
      ∧ ab.Periodics = a.Periodics ++ b.Periodics)
    ∧ (∀ (a b c ab bc abc abc2 : JobConfig),
      (b.Presubmits.map Prod.fst).Nodup → (b.Postsubmits.map Prod.fst).Nodup →
      mergeJobConfigs a b = .ok ab → mergeJobConfigs ab c = .ok abc →
      mergeJobConfigs b c = .ok bc → mergeJobConfigs a bc = .ok abc2 →
      (∀ repo, mapLookup abc.Presubmits repo = mapLookup abc2.Presubmits repo)
      ∧ (∀ repo, mapLookup abc.Postsubmits repo = mapLookup abc2.Postsubmits repo)
      ∧ abc.Periodics = abc2.Periodics) := by
  constructor
  · intro a b ab hb1 hb2 h
    obtain ⟨-, hper, hpre, hpost⟩ := mergeJobConfigs_ok a b ab h
    refine ⟨?_, ?_, hper⟩
    · intro repo
      rw [hpre, mapLookup_addAll, concatAll_eq_mapLookup _ _ hb1]
    · intro repo
      rw [hpost, mapLookup_addAll, concatAll_eq_mapLookup _ _ hb2]
  · intro a b c ab bc abc abc2 hb1 hb2 hab habc hbc habc2
    obtain ⟨-, hper1, hpre1, hpost1⟩ := mergeJobConfigs_ok a b ab hab
    obtain ⟨-, hper2, hpre2, hpost2⟩ := mergeJobConfigs_ok ab c abc habc
    obtain ⟨-, hper3, hpre3, hpost3⟩ := mergeJobConfigs_ok b c bc hbc
    obtain ⟨-, hper4, hpre4, hpost4⟩ := mergeJobConfigs_ok a bc abc2 habc2
    refine ⟨?_, ?_, ?_⟩
    · intro repo
      rw [hpre2, hpre1, hpre4, hpre3, mapLookup_addAll, mapLookup_addAll,
        mapLookup_addAll, concatAll_addAll _ _ _ hb1, List.append_assoc]
    · intro repo
      rw [hpost2, hpost1, hpost4, hpost3, mapLookup_addAll, mapLookup_addAll,
        mapLookup_addAll, concatAll_addAll _ _ _ hb2, List.append_assoc]
    · rw [hper2, hper1, hper4, hper3, List.append_assoc]

/-- A well-formed kubernetes job base, used by the closed scenarios. -/
def sampleBase (n : String) : JobBase :=
  { Name := n
    Agent := "kubernetes"
    Cluster := "default"
    Namespace := some "default"
    Labels := []
    MaxConcurrency := 0
    ErrorOnEviction := false
    Spec := some { Containers := [{ Command := ["run"], Args := [], Env := [] }]
                   InitContainers := []
                   Volumes := [] }
    Decorate := false
    DecorationConfig := none
    RerunAuthConfig := none
    ExtraRefs := [] }

/-- The Brancher with no patterns (matches every branch). -/
def emptyBrancher : Brancher :=
  { Branches := [], SkipBranches := [], re := none, reSkip := none }

/-- A Brancher scoped to the branch `main`. -/
def mainBrancher : Brancher :=
  { Branches := ["main"], SkipBranches := [], re := none, reSkip := none }

/-- The empty change matcher. -/
def emptyCM : RegexpChangeMatcher :=
  { RunIfChanged := "", reChanges := none }

/-- A well-formed presubmit, used by the closed scenarios. -/
def samplePresubmit (n : String) (br : Brancher) : Presubmit :=
  { base := sampleBase n
    brancher := br
    changeMatcher := emptyCM
    AlwaysRun := false
    SkipReport := false
    Context := n
    Trigger := ""
    RerunCommand := ""
    re := none }

/-- The empty job config. -/
def emptyJobConfig : JobConfig :=
  { Presets := [], Presubmits := [], Postsubmits := [], Periodics := [] }

/-- A job-config fragment with one presubmit under one repository. -/
def jcA : JobConfig :=
  { emptyJobConfig with Presubmits := [("org/repo", [samplePresubmit "job-a" emptyBrancher])] }

/-- A second fragment contributing to the same repository. -/
def jcB : JobConfig :=
  { emptyJobConfig with Presubmits := [("org/repo", [samplePresubmit "job-b" emptyBrancher])] }

/-- The merge of `jcA` and `jcB`: the repository's lists concatenate. -/
def jcAB : JobConfig :=
  { emptyJobConfig with
      Presubmits := [("org/repo",
        [samplePresubmit "job-a" emptyBrancher, samplePresubmit "job-b" emptyBrancher])] }

/-- Witness for C7: merging two concrete fragments concatenates the
repository's presubmit lists in order. -/
theorem merge_appends_per_repo_witness :
    mapLookup jcAB.Presubmits "org/repo" =
      mapLookup jcA.Presubmits "org/repo" ++ mapLookup jcB.Presubmits "org/repo" :=
  ((merge_appends_per_repo_and_assoc.1 jcA jcB jcAB (by decide) (by decide) rfl).1)
    "org/repo"

/-- Follows the claim's words, not the source: the entry located by the
claim's precedence chain, `org/repo` first, then `org`, with no merge
over the wildcard. -/
def locatedEntry (m : List (String × DecorationConfig)) (repo : String) :
    Option DecorationConfig :=
  match mapLookupV m repo with
  | some e => some e
  | none => mapLookupV m (orgOf repo)

/-- Follows the claim's words, not the source: the resolved default is
the located entry itself, falling back to the wildcard entry only when no
`org/repo` or `org` entry exists. -/
def claimResolvedDefault (m : List (String × DecorationConfig)) (repo : String) :
    Option DecorationConfig :=
  match locatedEntry m repo with
  | some e => some e
  | none => mapLookupV m "*"

/-- The `UtilityImages` field of a nil-able decoration config. -/
def uiField (od : Option DecorationConfig) : Option String :=
  od.bind (fun d => d.UtilityImages)

/-- The `Timeout` field of a nil-able decoration config. -/
def timeoutField (od : Option DecorationConfig) : Option Int :=
  od.bind (fun d => d.Timeout)

theorem applyDefault_uiField (a b : Option DecorationConfig) :
    uiField (applyDefault a b) = (uiField a).orElse fun _ => uiField b := by
  cases a with
  | none => cases b <;> simp [applyDefault, uiField, Option.orElse]
  | some d =>
    cases b with
    | none => cases hd : d.UtilityImages <;> simp [applyDefault, uiField, Option.orElse, hd]
    | some dd => simp [applyDefault, uiField, Option.orElse]

theorem applyDefault_timeoutField (a b : Option DecorationConfig) :
    timeoutField (applyDefault a b) = (timeoutField a).orElse fun _ => timeoutField b := by
  cases a with
  | none => cases b <;> simp [applyDefault, timeoutField, Option.orElse]
  | some d =>
    cases b with
    | none => cases hd : d.Timeout <;> simp [applyDefault, timeoutField, Option.orElse, hd]
    | some dd => simp [applyDefault, timeoutField, Option.orElse]

theorem GetDefaultDecorationConfigs_uiField (p : Plank) (repo : String) :
    uiField (GetDefaultDecorationConfigs p repo) =
      (uiField (locatedEntry p.DefaultDecorationConfigs repo)).orElse
        fun _ => uiField (mapLookupV p.DefaultDecorationConfigs "*") := by
  unfold GetDefaultDecorationConfigs locatedEntry
  cases h1 : mapLookupV p.DefaultDecorationConfigs repo with
  | some e => rw [applyDefault_uiField]
  | none =>
    cases h2 : mapLookupV p.DefaultDecorationConfigs (orgOf repo) with
    | some e => rw [applyDefault_uiField]
    | none => simp [uiField, Option.orElse]

theorem GetDefaultDecorationConfigs_timeoutField (p : Plank) (repo : String) :
    timeoutField (GetDefaultDecorationConfigs p repo) =
      (timeoutField (locatedEntry p.DefaultDecorationConfigs repo)).orElse
        fun _ => timeoutField (mapLookupV p.DefaultDecorationConfigs "*") := by
  unfold GetDefaultDecorationConfigs locatedEntry
  cases h1 : mapLookupV p.DefaultDecorationConfigs repo with
  | some e => rw [applyDefault_timeoutField]
  | none =>
    cases h2 : mapLookupV p.DefaultDecorationConfigs (orgOf repo) with
    | some e => rw [applyDefault_timeoutField]
    | none => simp [timeoutField, Option.orElse]

/-- A wildcard default with both fields set. -/
def dcWild : DecorationConfig := { UtilityImages := some "wild-images", Timeout := some 7 }

/-- An `org/repo` default that leaves `Timeout` unset. -/
def dcRepo : DecorationConfig := { UtilityImages := some "repo-images", Timeout := none }

/-- A default map with a wildcard entry and an `org/repo` entry. -/
def plankTwo : Plank :=
  { DefaultDecorationConfig := none
    DefaultDecorationConfigs := [("*", dcWild), ("org/repo", dcRepo)] }

/-- A config carrying `plankTwo`. -/
def configTwo : Config :=
  { jobConfig := emptyJobConfig, plank := plankTwo, podNamespace := "default" }

/-- A presubmit requesting decoration with no explicit decoration config. -/
def decoratedPresubmit : Presubmit :=
  { samplePresubmit "decorated" emptyBrancher with
      base := { sampleBase "decorated" with Decorate := true } }

/-- Counterexample for C2: with an `org/repo` entry that leaves `Timeout`
unset and a wildcard that sets it, the source resolver returns the
`org/repo` entry field-merged over the wildcard (`Timeout` set), not the
located entry itself as the claim states (`Timeout` unset). -/
theorem decoration_resolution_claim_cx :
    (setPresubmitDecorationDefaults configTwo decoratedPresubmit "org/repo").base.DecorationConfig
      ≠ applyDefault decoratedPresubmit.base.DecorationConfig
          (claimResolvedDefault plankTwo.DefaultDecorationConfigs "org/repo") := by
  decide

/-- The decoration config produced by `setPresubmitDecorationDefaults`
on a decorated presubmit. -/
theorem setPresubmitDecorationDefaults_dc (c : Config) (ps : Presubmit) (repo : String)
    (hdec : ps.base.Decorate = true) :
    (setPresubmitDecorationDefaults c ps repo).base.DecorationConfig
      = applyDefault ps.base.DecorationConfig (GetDefaultDecorationConfigs c.plank repo) := by
  unfold setPresubmitDecorationDefaults
  rw [if_pos hdec]

/-- C2 (amended): the resolver locates the `org/repo` entry, else the
`org` entry, and field-merges the located entry over the wildcard entry;
for every decoration field the job's explicitly set value wins, else the
located entry's value, else the wildcard's. -/
theorem decoration_resolution_amended (c : Config) (ps : Presubmit) (repo : String)
    (hdec : ps.base.Decorate = true) :
    uiField (setPresubmitDecorationDefaults c ps repo).base.DecorationConfig
      = ((uiField ps.base.DecorationConfig).orElse
          fun _ => (uiField (locatedEntry c.plank.DefaultDecorationConfigs repo)).orElse
            fun _ => uiField (mapLookupV c.plank.DefaultDecorationConfigs "*"))
    ∧ timeoutField (setPresubmitDecorationDefaults c ps repo).base.DecorationConfig
      = ((timeoutField ps.base.DecorationConfig).orElse
          fun _ => (timeoutField (locatedEntry c.plank.DefaultDecorationConfigs repo)).orElse
            fun _ => timeoutField (mapLookupV c.plank.DefaultDecorationConfigs "*")) := by
  rw [setPresubmitDecorationDefaults_dc c ps repo hdec]
  constructor
  · rw [applyDefault_uiField, GetDefaultDecorationConfigs_uiField]
  · rw [applyDefault_timeoutField, GetDefaultDecorationConfigs_timeoutField]

theorem forall₂_mem_left {α β : Type} {R : α → β → Prop} :
    ∀ {l : List α} {l' : List β}, List.Forall₂ R l l' → ∀ p ∈ l, ∃ p', R p p' := by
  intro l l' h
  induction h with
  | nil => intro p hp; cases hp
  | cons hr _ ih =>
    intro p hp
    rcases List.mem_cons.mp hp with rfl | hp
    · exact ⟨_, hr⟩
    · exact ih p hp

/-- A successful interval loop relates input and output periodics: a
cron-scheduled periodic is untouched, an interval-scheduled one must
parse and gets the parsed duration written into its private field. -/
theorem setIntervals_ok (E : Ext) :
    ∀ (l l' : List Periodic), setIntervals E l = .ok l' →
      List.Forall₂ (fun p p' =>
        ((p.Cron ≠ "" ∧ p.Interval = "") ∧ p' = p)
        ∨ (p.Cron = "" ∧ p.Interval ≠ "" ∧
            ∃ d, E.parseDuration p.Interval = .ok d ∧ p' = { p with interval := d })) l l' := by
  intro l
  induction l with
  | nil =>
    intro l' h
    unfold setIntervals at h
    injection h with h
    subst h
    exact List.Forall₂.nil
  | cons p rest ih =>
    intro l' h
    unfold setIntervals at h
    split_ifs at h with h1 h2 h3
    · cases hr : setIntervals E rest with
      | error e => rw [hr] at h; exact Except.noConfusion h
      | ok rest2 =>
        rw [hr] at h
        injection h with h
        subst h
        have hint : p.Interval = "" := by
          push_neg at h1
          exact h1 h3
        exact List.Forall₂.cons (Or.inl ⟨⟨h3, hint⟩, rfl⟩) (ih rest2 hr)
    · have hcron : p.Cron = "" := not_not.mp h3
      have hint : p.Interval ≠ "" := by
        intro he
        exact h2 ⟨hcron, he⟩
      cases hp : E.parseDuration p.Interval with
      | error e => rw [hp] at h; exact Except.noConfusion h
      | ok d =>
        rw [hp] at h
        cases hr : setIntervals E rest with
        | error e => rw [hr] at h; exact Except.noConfusion h
        | ok rest2 =>
          rw [hr] at h
          injection h with h
          subst h
          exact List.Forall₂.cons (Or.inr ⟨hcron, hint, d, hp, rfl⟩) (ih rest2 hr)

/-- A successful `validateJobConfig` runs the interval loop successfully
on the input periodics and only replaces the periodic list. -/
theorem validateJobConfig_ok (E : Ext) (c c' : Config) (h : validateJobConfig E c = .ok c') :
    ∃ ps, setIntervals E c.jobConfig.Periodics = .ok ps
      ∧ c' = { c with jobConfig := { c.jobConfig with Periodics := ps } } := by
  unfold validateJobConfig at h
  split at h
  · exact absurd h (by simp)
  · split at h
    · exact absurd h (by simp)
    · split at h
      · exact absurd h (by simp)
      · split at h
        · exact absurd h (by simp)
        · next ps hsi =>
          injection h with h
          exact ⟨ps, hsi, h.symm⟩

/-- The Plank with no decoration defaults. -/
def emptyPlank : Plank :=
  { DefaultDecorationConfig := none, DefaultDecorationConfigs := [] }

/-- A periodic with both cron and interval set. -/
def periodicBoth : Periodic :=
  { base := sampleBase "p-both", Cron := "0 * * * *", Interval := "1h", interval := 0 }

/-- A periodic with neither cron nor interval set. -/
def periodicNone : Periodic :=
  { base := sampleBase "p-none", Cron := "", Interval := "", interval := 0 }

/-- A periodic scheduled by interval only. -/
def periodicInt : Periodic :=
  { base := sampleBase "p-int", Cron := "", Interval := "1h", interval := 0 }

/-- A config whose only job is `periodicBoth`. -/
def configBothSet : Config :=
  { jobConfig := { emptyJobConfig with Periodics := [periodicBoth] }
    plank := emptyPlank
    podNamespace := "default" }

/-- A config whose only job is `periodicNone`. -/
def configBothEmpty : Config :=
  { jobConfig := { emptyJobConfig with Periodics := [periodicNone] }
    plank := emptyPlank
    podNamespace := "default" }

/-- A config whose only job is `periodicInt`. -/
def configInt : Config :=
  { jobConfig := { emptyJobConfig with Periodics := [periodicInt] }
    plank := emptyPlank
    podNamespace := "default" }

/-- The result of validating `configInt` under `extId`: the parsed
duration is written into the periodic. -/
def configIntRes : Config :=
  { jobConfig := { emptyJobConfig with Periodics := [{ periodicInt with interval := 1 }] }
    plank := emptyPlank
    podNamespace := "default" }

/-- C5: in any successfully validated configuration every periodic has
exactly one of cron and interval set, and a set interval parses as a
duration; a periodic with both set, or with both empty, fails validation
with an error naming the job. -/
theorem periodic_schedule_exactly_one :
    (∀ (E : Ext) (c c' : Config), validateJobConfig E c = .ok c' →
      ∀ p ∈ c.jobConfig.Periodics,
        (p.Cron ≠ "" ∧ p.Interval = "")
        ∨ (p.Cron = "" ∧ p.Interval ≠ "" ∧ ∃ d, E.parseDuration p.Interval = .ok d))
    ∧ validateJobConfig extId configBothSet =
        .error "cron and interval cannot be both set in periodic p-both"
    ∧ validateJobConfig extId configBothEmpty =
        .error "cron and interval cannot be both empty in periodic p-none" := by
  refine ⟨?_, rfl, rfl⟩
  intro E c c' h p hp
  obtain ⟨ps, hsi, -⟩ := validateJobConfig_ok E c c' h
  obtain ⟨p', hrel⟩ := forall₂_mem_left (setIntervals_ok E _ _ hsi) p hp
  rcases hrel with ⟨⟨hc, hi⟩, -⟩ | ⟨hc, hi, d, hd, -⟩
  · exact Or.inl ⟨hc, hi⟩
  · exact Or.inr ⟨hc, hi, d, hd⟩

/-- Witness for C5: the interval-only periodic of `configInt` satisfies
the exactly-one property under `extId`. -/
theorem periodic_schedule_exactly_one_witness :
    (periodicInt.Cron ≠ "" ∧ periodicInt.Interval = "")
    ∨ (periodicInt.Cron = "" ∧ periodicInt.Interval ≠ "" ∧
        ∃ d, extId.parseDuration periodicInt.Interval = .ok d) :=
  periodic_schedule_exactly_one.1 extId configInt configIntRes rfl periodicInt
    (List.mem_singleton.mpr rfl)

/-- C10: validation is not read-only — a successful `validateJobConfig`
returns the config unchanged except that every interval-scheduled
periodic has its parsed duration written into the private `interval`
field; cron-scheduled periodics and all other parts of the config are
untouched. -/
theorem validate_mutates_only_interval :
    ∀ (E : Ext) (c c' : Config), validateJobConfig E c = .ok c' →
      c'.podNamespace = c.podNamespace ∧ c'.plank = c.plank
      ∧ c'.jobConfig.Presets = c.jobConfig.Presets
      ∧ c'.jobConfig.Presubmits = c.jobConfig.Presubmits
      ∧ c'.jobConfig.Postsubmits = c.jobConfig.Postsubmits
      ∧ List.Forall₂ (fun p p' =>
          (p.Cron ≠ "" → p' = p)
          ∧ (p.Cron = "" → ∃ d, E.parseDuration p.Interval = .ok d ∧ p' = { p with interval := d }))
        c.jobConfig.Periodics c'.jobConfig.Periodics := by
  intro E c c' h
  obtain ⟨ps, hsi, hc'⟩ := validateJobConfig_ok E c c' h
  subst hc'
  refine ⟨rfl, rfl, rfl, rfl, rfl, ?_⟩
  refine (setIntervals_ok E _ _ hsi).imp ?_
  intro p p' hrel
  rcases hrel with ⟨⟨hc, -⟩, rfl⟩ | ⟨hc, -, d, hd, rfl⟩
  · exact ⟨fun _ => rfl, fun he => absurd he hc⟩
  · exact ⟨fun hne => absurd hc hne, fun _ => ⟨d, hd, rfl⟩⟩

/-- Witness for C10 at `configInt`: only the periodic's `interval` field
changes. -/
theorem validate_mutates_only_interval_witness :
    configIntRes.podNamespace = configInt.podNamespace ∧ configIntRes.plank = configInt.plank
    ∧ configIntRes.jobConfig.Presets = configInt.jobConfig.Presets
    ∧ configIntRes.jobConfig.Presubmits = configInt.jobConfig.Presubmits
    ∧ configIntRes.jobConfig.Postsubmits = configInt.jobConfig.Postsubmits
    ∧ List.Forall₂ (fun p p' =>
        (p.Cron ≠ "" → p' = p)
        ∧ (p.Cron = "" → ∃ d, extId.parseDuration p.Interval = .ok d ∧ p' = { p with interval := d }))
      configInt.jobConfig.Periodics configIntRes.jobConfig.Periodics :=
  validate_mutates_only_interval extId configInt configIntRes rfl

/-- C4: a successful `SetPresubmitRegexes` guarantees every returned
presubmit's compiled trigger accepts its rerun command; a presubmit whose
trigger compiles but whose rerun command the trigger does not accept
makes `SetPresubmitRegexes` fail with an error naming the job, its rerun
command and its trigger. -/
theorem rerun_must_match_trigger :
    (∀ (E : Ext) (l l' : List Presubmit), SetPresubmitRegexes E l = .ok l' →
      ∀ p ∈ l', E.reMatch p.Trigger p.RerunCommand = true ∧ p.re = some p.Trigger)
    ∧ (∀ (E : Ext) (j : Presubmit) (rest : List Presubmit),
        E.compileOk j.Trigger = .ok () → E.reMatch j.Trigger j.RerunCommand = false →
        SetPresubmitRegexes E (j :: rest) =
          .error ("for job " ++ j.base.Name ++ ", rerun command \"" ++ j.RerunCommand ++
            "\" does not match trigger \"" ++ j.Trigger ++ "\"")) := by
  constructor
  · intro E l
    induction l with
    | nil =>
      intro l' h
      unfold SetPresubmitRegexes at h
      injection h with h
      subst h
      intro p hp
      cases hp
    | cons j rest ih =>
      intro l' h
      unfold SetPresubmitRegexes at h
      cases hc : E.compileOk j.Trigger with
      | error e => rw [hc] at h; exact Except.noConfusion h
      | ok u =>
        rw [hc] at h
        by_cases hm : E.reMatch j.Trigger j.RerunCommand = false
        · rw [if_pos hm] at h
          exact Except.noConfusion h
        · rw [if_neg hm] at h
          cases hb : setBrancherRegexes E j.brancher with
          | error e => rw [hb] at h; exact Except.noConfusion h
          | ok b =>
            rw [hb] at h
            cases hcm : setChangeRegexes E j.changeMatcher with
            | error e => rw [hcm] at h; exact Except.noConfusion h
            | ok cm =>
              rw [hcm] at h
              cases hrest : SetPresubmitRegexes E rest with
              | error e => rw [hrest] at h; exact Except.noConfusion h
              | ok rest2 =>
                rw [hrest] at h
                injection h with h
                subst h
                intro p hp
                rcases List.mem_cons.mp hp with rfl | hp
                · refine ⟨?_, rfl⟩
                  cases hbm : E.reMatch j.Trigger j.RerunCommand with
                  | false => exact absurd hbm hm
                  | true => rfl
                · exact ih rest2 hrest p hp
  · intro E j rest hc hm
    unfold SetPresubmitRegexes
    rw [hc, if_pos hm]

/-- A literal sequence matches itself at its position inside a text. -/
theorem mspan_lit (cs : List Char) : ∀ (pre post : List Char) (i j : Nat),
    i = pre.length → j = i + cs.length →
    MSpan (litRE cs) (pre ++ (cs ++ post)) i j := by
  induction cs with
  | nil =>
    intro pre post i j hi hj
    subst hi
    subst hj
    simpa using MSpan.eps (pre ++ ([] ++ post)) pre.length
  | cons c cs ih =>
    intro pre post i j hi hj
    subst hi
    have hget : (pre ++ (c :: cs ++ post))[pre.length]? = some c := by
      rw [List.getElem?_append_right (Nat.le_refl pre.length)]
      simp
    have h1 : MSpan (.ch c) (pre ++ (c :: cs ++ post)) pre.length (pre.length + 1) :=
      MSpan.ch _ _ _ hget
    have h2 : MSpan (litRE cs) ((pre ++ [c]) ++ (cs ++ post)) (pre ++ [c]).length j := by
      apply ih (pre ++ [c]) post (pre ++ [c]).length j rfl
      simp only [List.length_append, List.length_cons, List.length_nil] at hj ⊢
      omega
    have heq : (pre ++ [c]) ++ (cs ++ post) = pre ++ (c :: cs ++ post) := by simp
    have hlen : (pre ++ [c]).length = pre.length + 1 := by simp
    rw [heq, hlen] at h2
    exact MSpan.seq h1 h2

/-- The compiled job-name pattern matches the name itself at its position
inside a text: every character matches its own literal, and the dot (an
any-character pattern) matches the dot character standing there. -/
theorem mspan_name (cs : List Char) : ∀ (pre post : List Char) (i j : Nat),
    i = pre.length → j = i + cs.length →
    MSpan (nameRE cs) (pre ++ (cs ++ post)) i j := by
  induction cs with
  | nil =>
    intro pre post i j hi hj
    subst hi
    subst hj
    simpa using MSpan.eps (pre ++ ([] ++ post)) pre.length
  | cons c cs ih =>
    intro pre post i j hi hj
    subst hi
    have hget : (pre ++ (c :: cs ++ post))[pre.length]? = some c := by
      rw [List.getElem?_append_right (Nat.le_refl pre.length)]
      simp
    have h1 : MSpan (if c = '.' then RE.anyc else RE.ch c) (pre ++ (c :: cs ++ post))
        pre.length (pre.length + 1) := by
      by_cases hc : c = '.'
      · rw [if_pos hc]
        exact MSpan.anyc _ _ _ hget
      · rw [if_neg hc]
        exact MSpan.ch _ _ _ hget
    have h2 : MSpan (nameRE cs) ((pre ++ [c]) ++ (cs ++ post)) (pre ++ [c]).length j := by
      apply ih (pre ++ [c]) post (pre ++ [c]).length j rfl
      simp only [List.length_append, List.length_cons, List.length_nil] at hj ⊢
      omega
    have heq : (pre ++ [c]) ++ (cs ++ post) = pre ++ (c :: cs ++ post) := by simp
    have hlen : (pre ++ [c]).length = pre.length + 1 := by simp
    rw [heq, hlen] at h2
    exact MSpan.seq h1 h2

/-- C8: for every job name accepted by the job-name identifier pattern,
the default trigger pattern synthesized for the name matches the default
rerun command `/test name`: the begin-of-line anchor matches at position
0, the literal `/test`, the single-space branch of the group, the
compiled name, the empty comma option and the end anchor span the whole
command. -/
theorem default_trigger_matches_default_rerun (name : String)
    (h : jobNameOK name = true) :
    reMatches (triggerRE name) (DefaultRerunCommandFor name) := by
  have hdata : (DefaultRerunCommandFor name).data = "/test ".data ++ name.data :=
    String.data_append "/test " name
  have hsplit : ("/test ".data : List Char) = "/test".data ++ [' '] := by decide
  refine ⟨0, 6 + name.data.length, ?_⟩
  rw [hdata]
  have p0 : MSpan .bol ("/test ".data ++ name.data) 0 0 :=
    MSpan.bolStart _
  have p1 : MSpan (litRE "/test".data) ("/test ".data ++ name.data) 0 5 := by
    have := mspan_lit "/test".data [] ([' '] ++ name.data) 0 5 (by decide) (by decide)
    simpa [hsplit] using this
  have p2 : MSpan (.alt (litRE [' ']) (.seq (.ch ' ') (.seq (.star .anyc) (.ch ' '))))
      ("/test ".data ++ name.data) 5 6 := by
    refine MSpan.altL ?_
    have := mspan_lit [' '] "/test".data name.data 5 6 (by decide) (by decide)
    simpa [hsplit] using this
  have p3 : MSpan (nameRE name.data) ("/test ".data ++ name.data) 6 (6 + name.data.length) := by
    have := mspan_name name.data "/test ".data [] 6 (6 + name.data.length) (by decide) rfl
    simpa using this
  have p4 : MSpan (.alt (.ch ',') .eps) ("/test ".data ++ name.data)
      (6 + name.data.length) (6 + name.data.length) :=
    MSpan.altR (MSpan.eps _ _)
  have hlenL : ("/test ".data ++ name.data).length = 6 + name.data.length := by
    rw [List.length_append]
    norm_num
  have p5 : MSpan (.alt .eol (.seq (.cls goSpace) (.star .anyc)))
      ("/test ".data ++ name.data) (6 + name.data.length) (6 + name.data.length) := by
    refine MSpan.altL ?_
    have := MSpan.eolEnd ("/test ".data ++ name.data)
    rwa [hlenL] at this
  unfold triggerRE
  exact MSpan.seq p0 (MSpan.seq p1 (MSpan.seq p2 (MSpan.seq p3 (MSpan.seq p4 p5))))

/-- Witness for C8 at a concrete valid job name containing a dot. -/
theorem default_trigger_matches_default_rerun_witness :
    jobNameOK "unit-test.sh" = true
    ∧ reMatches (triggerRE "unit-test.sh") (DefaultRerunCommandFor "unit-test.sh") :=
  ⟨by decide, default_trigger_matches_default_rerun "unit-test.sh" (by decide)⟩

theorem mapLookupV_some_ne_nil {α : Type} (m : List (String × α)) (k : String) (v : α)
    (h : mapLookupV m k = some v) : m ≠ [] := by
  intro he
  subst he
  exact Option.noConfusion h

/-- C6: when some job requests decoration and no wildcard entry exists
(after the deprecated single default, here absent, would have been
migrated), `finalizeJobConfig` fails with a missing-wildcard error; when
the wildcard entry exists but does not validate, it fails with the
validation error; when no job requests decoration the decoration block is
skipped entirely and only the defaulting loops run. -/
theorem wildcard_decoration_required :
    (∀ (E : Ext) (c : Config), decorationRequested c.jobConfig = true →
      c.plank.DefaultDecorationConfig = none →
      mapLookupV c.plank.DefaultDecorationConfigs "*" = none →
      finalizeJobConfig E c =
          .error "both default_decoration_config and default_decoration_configs[*] are missing"
        ∨ finalizeJobConfig E c = .error "default_decoration_configs[*] is missing")
    ∧ (∀ (E : Ext) (c : Config) (w : DecorationConfig) (msg : String),
      decorationRequested c.jobConfig = true →
      c.plank.DefaultDecorationConfig = none →
      mapLookupV c.plank.DefaultDecorationConfigs "*" = some w →
      E.dcValidate w = .error msg →
      finalizeJobConfig E c = .error ("decoration config validation error: " ++ msg))
    ∧ (∀ (E : Ext) (c : Config), decorationRequested c.jobConfig = false →
      finalizeJobConfig E c = finalizeRepos E c) := by
  refine ⟨?_, ?_, ?_⟩
  · intro E c hreq hdc hw
    have hd : decorationDefaulting E c =
        (if c.plank.DefaultDecorationConfigs = [] then
          .error "both default_decoration_config and default_decoration_configs[*] are missing"
        else .error "default_decoration_configs[*] is missing") := by
      unfold decorationDefaulting
      rw [hdc]
      dsimp only
      by_cases hm : c.plank.DefaultDecorationConfigs = []
      · rw [if_pos hm, if_pos hm]
      · rw [if_neg hm, if_neg hm, hw]
    unfold finalizeJobConfig
    rw [if_pos hreq, hd]
    by_cases hm : c.plank.DefaultDecorationConfigs = []
    · rw [if_pos hm]
      exact Or.inl rfl
    · rw [if_neg hm]
      exact Or.inr rfl
  · intro E c w msg hreq hdc hw hval
    have hm : ¬c.plank.DefaultDecorationConfigs = [] :=
      mapLookupV_some_ne_nil _ _ _ hw
    have hd : decorationDefaulting E c =
        .error ("decoration config validation error: " ++ msg) := by
      unfold decorationDefaulting
      rw [hdc]
      dsimp only
      rw [if_neg hm, hw]
      dsimp only
      rw [hval]
    unfold finalizeJobConfig
    rw [if_pos hreq, hd]
  · intro E c hreq
    unfold finalizeJobConfig
    rw [if_neg (by rw [hreq]; exact Bool.false_ne_true)]

/-- A config with one decorated presubmit and no decoration defaults at
all. -/
def decoratedConfigNoWildcard : Config :=
  { jobConfig := { emptyJobConfig with Presubmits := [("org/repo", [decoratedPresubmit])] }
    plank := emptyPlank
    podNamespace := "default" }

/-- Witness for C6: the concrete decorated config with no wildcard entry
fails with a missing-wildcard error. -/
theorem wildcard_decoration_required_witness :
    finalizeJobConfig extId decoratedConfigNoWildcard =
        .error "both default_decoration_config and default_decoration_configs[*] are missing"
      ∨ finalizeJobConfig extId decoratedConfigNoWildcard =
        .error "default_decoration_configs[*] is missing" :=
  wildcard_decoration_required.1 extId decoratedConfigNoWildcard rfl rfl rfl

/-- A rerun-auth policy that allows anyone and also lists users. -/
def badRerunAuth : RerunAuthConfig :=
  { AllowAnyone := true, GitHubUsers := ["alice"], GitHubTeamIDs := [], GitHubTeamSlugs := [] }

/-- A jenkins job (no pod spec) carrying the contradictory policy. -/
def jenkinsBadRerun : JobBase :=
  { Name := "jenkins-job"
    Agent := "jenkins"
    Cluster := "default"
    Namespace := some "default"
    Labels := []
    MaxConcurrency := 0
    ErrorOnEviction := false
    Spec := none
    Decorate := false
    DecorationConfig := none
    RerunAuthConfig := some badRerunAuth
    ExtraRefs := [] }

/-- Counterexample for C9: a jenkins job with no pod spec returns from
`validateJobBase` before the rerun-auth check, so a policy with
allow-anyone and an explicit user list is accepted — the check is not
applied uniformly to every job. -/
theorem rerun_auth_not_uniform_cx :
    jenkinsBadRerun.RerunAuthConfig.map
        (fun r => r.AllowAnyone && !r.GitHubUsers.isEmpty) = some true
    ∧ validateJobBase extId jenkinsBadRerun ProwJobType.periodic "default" = .ok () :=
  ⟨rfl, rfl⟩

/-- C9 (amended): for every job whose pod spec is present with at least
one container, `validateJobBase` rejects (returns an error for) a
rerun-auth policy that sets allow-anyone together with any explicit
allow-list of users, team IDs or team slugs. -/
theorem rerun_auth_amended (E : Ext) (v : JobBase) (jt : ProwJobType) (ns : String)
    (sp : PodSpec) (hsp : v.Spec = some sp) (hc : sp.Containers ≠ [])
    (rac : RerunAuthConfig) (hr : v.RerunAuthConfig = some rac)
    (ha : rac.AllowAnyone = true)
    (hl : rac.GitHubUsers ≠ [] ∨ rac.GitHubTeamIDs ≠ [] ∨ rac.GitHubTeamSlugs ≠ []) :
    ∃ e, validateJobBase E v jt ns = .error e := by
  unfold validateJobBase
  by_cases h1 : jobNameOK v.Name = false
  · rw [if_pos h1]
    exact ⟨_, rfl⟩
  · rw [if_neg h1]
    by_cases h2 : v.MaxConcurrency < 0
    · rw [if_pos h2]
      exact ⟨_, rfl⟩
    · rw [if_neg h2]
      cases hva : validateAgent v ns with
      | error e => exact ⟨e, rfl⟩
      | ok u =>
        cases hvp : validatePodSpec jt v.Spec with
        | error e => exact ⟨e, rfl⟩
        | ok u2 =>
          cases hvl : validateLabels E v.Labels with
          | error e => exact ⟨e, rfl⟩
          | ok u3 =>
            obtain ⟨c0, cs, hcs⟩ := List.exists_cons_of_ne_nil hc
            dsimp only
            rw [hsp]
            dsimp only
            rw [hcs]
            dsimp only
            rw [hr]
            dsimp only
            rw [if_pos ⟨ha, hl⟩]
            exact ⟨_, rfl⟩

/-- A kubernetes job (with a pod spec) carrying the contradictory
policy. -/
def kubeBadRerun : JobBase :=
  { sampleBase "kube-bad" with RerunAuthConfig := some badRerunAuth }

/-- Witness for the amended C9: with a pod spec present the policy is
rejected. -/
theorem rerun_auth_amended_witness :
    ∃ e, validateJobBase extId kubeBadRerun ProwJobType.presubmit "default" = .error e :=
  rerun_auth_amended extId kubeBadRerun .presubmit "default"
    { Containers := [{ Command := ["run"], Args := [], Env := [] }]
      InitContainers := []
      Volumes := [] }
    rfl (by decide) badRerunAuth rfl rfl (Or.inl (by decide))

/-- No-duplicate relation between two presubmits: equal names force
non-intersecting branchers. -/
def noDupPresubmit (a b : Presubmit) : Prop :=
  a.base.Name = b.base.Name → brancherIntersects a.brancher b.brancher = false

/-- No-duplicate relation between two postsubmits. -/
def noDupPostsubmit (a b : Postsubmit) : Prop :=
  a.base.Name = b.base.Name → brancherIntersects a.brancher b.brancher = false

/-- A successful presubmit validation loop leaves no same-name pair with
intersecting branchers, neither against the already-accepted map nor
within the remaining list. -/
theorem validatePresubmitsAux_ok (E : Ext) (ns : String) :
    ∀ (l : List Presubmit) (acc : List (String × List Presubmit)),
      validatePresubmitsAux E ns acc l = .ok () →
      (∀ p ∈ l, ∀ q ∈ mapLookup acc p.base.Name,
        brancherIntersects q.brancher p.brancher = false)
      ∧ l.Pairwise noDupPresubmit := by
  intro l
  induction l with
  | nil =>
    intro acc h
    exact ⟨fun p hp => absurd hp (List.not_mem_nil p), List.Pairwise.nil⟩
  | cons ps rest ih =>
    intro acc h
    unfold validatePresubmitsAux at h
    by_cases hg : (mapLookup acc ps.base.Name).any
        (fun existing => brancherIntersects existing.brancher ps.brancher) = true
    · rw [if_pos hg] at h
      exact Except.noConfusion h
    · rw [if_neg hg] at h
      cases hvb : validateJobBase E ps.base .presubmit ns with
      | error e => rw [hvb] at h; exact Except.noConfusion h
      | ok u =>
        rw [hvb] at h
        cases hvt : validateTriggering ps with
        | error e => rw [hvt] at h; exact Except.noConfusion h
        | ok u2 =>
          rw [hvt] at h
          obtain ⟨h1, h2⟩ := ih (insertAppend acc ps.base.Name [ps]) h
          have hnint : ∀ q ∈ mapLookup acc ps.base.Name,
              brancherIntersects q.brancher ps.brancher = false := by
            intro q hq
            cases hb : brancherIntersects q.brancher ps.brancher with
            | false => rfl
            | true => exact absurd (List.any_eq_true.mpr ⟨q, hq, hb⟩) hg
          constructor
          · intro p hp q hq
            rcases List.mem_cons.mp hp with rfl | hp
            · exact hnint q hq
            · refine h1 p hp q ?_
              rw [mapLookup_insertAppend]
              by_cases he : ps.base.Name = p.base.Name
              · rw [if_pos he]
                exact List.mem_append_left _ hq
              · rw [if_neg he]
                exact hq
          · refine List.Pairwise.cons ?_ h2
            intro r hr hname
            refine h1 r hr ps ?_
            rw [mapLookup_insertAppend, if_pos hname]
            exact List.mem_append_right _ (List.mem_singleton.mpr rfl)

/-- A successful postsubmit validation loop leaves no same-name pair with
intersecting branchers. -/
theorem validatePostsubmitsAux_ok (E : Ext) (ns : String) :
    ∀ (l : List Postsubmit) (acc : List (String × List Postsubmit)),
      validatePostsubmitsAux E ns acc l = .ok () →
      (∀ p ∈ l, ∀ q ∈ mapLookup acc p.base.Name,
        brancherIntersects q.brancher p.brancher = false)
      ∧ l.Pairwise noDupPostsubmit := by
  intro l
  induction l with
  | nil =>
    intro acc h
    exact ⟨fun p hp => absurd hp (List.not_mem_nil p), List.Pairwise.nil⟩
  | cons ps rest ih =>
    intro acc h
    unfold validatePostsubmitsAux at h
    by_cases hg : (mapLookup acc ps.base.Name).any
        (fun existing => brancherIntersects existing.brancher ps.brancher) = true
    · rw [if_pos hg] at h
      exact Except.noConfusion h
    · rw [if_neg hg] at h
      cases hvb : validateJobBase E ps.base .postsubmit ns with
      | error e => rw [hvb] at h; exact Except.noConfusion h
      | ok u =>
        rw [hvb] at h
        obtain ⟨h1, h2⟩ := ih (insertAppend acc ps.base.Name [ps]) h
        have hnint : ∀ q ∈ mapLookup acc ps.base.Name,
            brancherIntersects q.brancher ps.brancher = false := by
          intro q hq
          cases hb : brancherIntersects q.brancher ps.brancher with
          | false => rfl
          | true => exact absurd (List.any_eq_true.mpr ⟨q, hq, hb⟩) hg
        constructor
        · intro p hp q hq
          rcases List.mem_cons.mp hp with rfl | hp
          · exact hnint q hq
          · refine h1 p hp q ?_
            rw [mapLookup_insertAppend]
            by_cases he : ps.base.Name = p.base.Name
            · rw [if_pos he]
              exact List.mem_append_left _ hq
            · rw [if_neg he]
              exact hq
        · refine List.Pairwise.cons ?_ h2
          intro r hr hname
          refine h1 r hr ps ?_
          rw [mapLookup_insertAppend, if_pos hname]
          exact List.mem_append_right _ (List.mem_singleton.mpr rfl)

/-- A repository with two presubmits both named `unit-test` and both
scoped to branch `main`. -/
def configDupPresubmits : Config :=
  { jobConfig := { emptyJobConfig with
      Presubmits := [("org/repo",
        [samplePresubmit "unit-test" mainBrancher, samplePresubmit "unit-test" mainBrancher])] }
    plank := emptyPlank
    podNamespace := "default" }

/-- C3: a successfully validated presubmit (resp. postsubmit) list of one
repository contains no two entries that share a name and have
intersecting branchers — so validation fails on any such pair — and the
concrete repository with two `unit-test` presubmits both on `main` fails
with the duplicated-presubmit error. -/
theorem no_duplicate_name_branch :
    (∀ (E : Ext) (ns : String) (l : List Presubmit),
      validatePresubmits E l ns = .ok () → l.Pairwise noDupPresubmit)
    ∧ (∀ (E : Ext) (ns : String) (l : List Postsubmit),
      validatePostsubmits E l ns = .ok () → l.Pairwise noDupPostsubmit)
    ∧ validateJobConfig extId configDupPresubmits = .error "duplicated presubmit job: unit-test" := by
  refine ⟨?_, ?_, rfl⟩
  · intro E ns l h
    exact (validatePresubmitsAux_ok E ns l [] h).2
  · intro E ns l h
    exact (validatePostsubmitsAux_ok E ns l [] h).2

/-- Witness for C3: a single accepted presubmit list is duplicate-free. -/
theorem no_duplicate_name_branch_witness :
    List.Pairwise noDupPresubmit [samplePresubmit "unit-test" mainBrancher] :=
  no_duplicate_name_branch.1 extId "default" [samplePresubmit "unit-test" mainBrancher] rfl

/-- The identity oracles with a regexp engine that rejects every match. -/
def extNoMatch : Ext := { extId with reMatch := fun _ _ => false }

/-- The spec's scenario presubmit: trigger `/run foo` with rerun command
`/test foo`. -/
def pRerun : Presubmit :=
  { samplePresubmit "trig-job" emptyBrancher with
      Trigger := "/run foo", RerunCommand := "/test foo" }

/-- Witness for C4: the scenario job fails with the mismatch error. -/
theorem rerun_must_match_trigger_witness :
    SetPresubmitRegexes extNoMatch [pRerun] =
      .error ("for job " ++ pRerun.base.Name ++ ", rerun command \"" ++ pRerun.RerunCommand ++
        "\" does not match trigger \"" ++ pRerun.Trigger ++ "\"") :=
  rerun_must_match_trigger.2 extNoMatch pRerun [] rfl rfl

/-- Witness for the amended C2 at the concrete counterexample input. -/
theorem decoration_resolution_amended_witness :
    uiField (setPresubmitDecorationDefaults configTwo decoratedPresubmit "org/repo").base.DecorationConfig
      = ((uiField decoratedPresubmit.base.DecorationConfig).orElse
          fun _ => (uiField (locatedEntry configTwo.plank.DefaultDecorationConfigs "org/repo")).orElse
            fun _ => uiField (mapLookupV configTwo.plank.DefaultDecorationConfigs "*"))
    ∧ timeoutField (setPresubmitDecorationDefaults configTwo decoratedPresubmit "org/repo").base.DecorationConfig
      = ((timeoutField decoratedPresubmit.base.DecorationConfig).orElse
          fun _ => (timeoutField (locatedEntry configTwo.plank.DefaultDecorationConfigs "org/repo")).orElse
            fun _ => timeoutField (mapLookupV configTwo.plank.DefaultDecorationConfigs "*")) :=
  decoration_resolution_amended configTwo decoratedPresubmit "org/repo" rfl

end Prow
